import Mathlib

/-!
# Third-party endpoint resolution (`worker/appm/thirdparty/endpoints.go`)

A shallow embedding of the Go file and the properties of its four functions
`NewInteracter`, `static.List`, `dynamic.List` and `Conv`.

Modelling conventions.

* A Go `error` is a `GoError`; a possibly-nil error is an `Option GoError`,
  a Go result pair `(x, err)` is a Lean pair.
* A slice `[]*T` of records is a `List T`.  A nilable pointer *field* is an
  `Option` (`IsOnline *bool`), and dereferencing it when nil panics.
* The collaborators outside the file (the two DAOs and the discovery client)
  are parameters: each is given by what its calls return.
* `Conv` mutates its groups through pointers held both in the slice `res` and
  in the map `m`.  Every group is appended to `res` in the statement after
  it is allocated and `res` is never reordered, so the position of a group in
  `res` serves as its address and `m` maps a port to such a position.
-/

namespace Thirdparty

/-- A Go `error` value, identified with its message. -/
abbrev GoError := String

/-- The identity of a channel (`*channels.RingChannel`, `chan struct{}`). -/
abbrev Chan := Nat

/-- The record `model.Endpoint`, with the fields the file reads.  `IsOnline`
is a `*bool` in the source (it is read as `*ep.IsOnline`). -/
structure Endpoint where
  UUID : String
  ServiceID : String
  IP : String
  Port : Int
  IsOnline : Option Bool
deriving DecidableEq, Repr

/-- The record `v1.RbdEndpoint` returned by `List`. -/
structure RbdEndpoint where
  UUID : String
  Sid : String
  IP : String
  Port : Int
  Status : String
  IsOnline : Bool
deriving DecidableEq, Repr

/-- The group `v1.RbdEndpoints` returned by `Conv`: a port and its addresses. -/
structure RbdEndpoints where
  Port : Int
  IPs : List String
deriving DecidableEq, Repr

/-- How a call ends: it returns a value, or it panics (nil dereference). -/
inductive Outcome (α : Type) where
  | returned : α → Outcome α
  | panicked : Outcome α
deriving DecidableEq, Repr

/-! ## `NewInteracter` -/

/-- The receiver `static`. -/
structure static where
  sid : String
deriving DecidableEq, Repr

/-- The receiver `dynamic`; `Cfg` stands for `model.ThirdPartySvcDiscoveryCfg`. -/
structure dynamic (Cfg : Type) where
  cfg : Cfg
  updateCh : Chan
  stopCh : Chan
deriving DecidableEq, Repr

/-- The two implementations of the interface `Interacter`. -/
inductive Interacter (Cfg : Type) where
  | ofDynamic : dynamic Cfg → Interacter Cfg
  | ofStatic : static → Interacter Cfg
deriving DecidableEq, Repr

/-- `NewInteracter(sid, updateCh, stopCh)`.  `GetByServiceID` is the lookup
`ThirdPartySvcDiscoveryCfgDao().GetByServiceID`, returning a possibly-nil
configuration and a possibly-nil error.  The second component of the result
is what was written to the log. -/
def NewInteracter {Cfg : Type} (GetByServiceID : String → Option Cfg × Option GoError)
    (sid : String) (updateCh stopCh : Chan) : Interacter Cfg × List String :=
  let (cfg, err) := GetByServiceID sid
  let log : List String :=
    match err with
    | some e =>
      ["ServiceID: " ++ sid ++ ";error getting third-party discovery configuration: " ++ e]
    | none => []
  match err, cfg with
  | none, some c => (.ofDynamic ⟨c, updateCh, stopCh⟩, log)
  | _, _ => (.ofStatic ⟨sid⟩, log)

/-! ## `static.List` -/

/-- The loop of `static.List`: one record is appended to `res` per stored
endpoint; reading `*ep.IsOnline` panics when the pointer is nil. -/
def static_List_loop : List Endpoint → List RbdEndpoint → Outcome (List RbdEndpoint)
  | [], res => .returned res
  | ep :: eps, res =>
    match ep.IsOnline with
    | none => .panicked
    | some online =>
      static_List_loop eps
        (res ++ [⟨ep.UUID, ep.ServiceID, ep.IP, ep.Port, "unknown", online⟩])

/-- `(*static).List()`.  `EndpointsDao_List` is the storage read
`EndpointsDao().List`. -/
def static_List (EndpointsDao_List : String → List Endpoint × Option GoError)
    (s : static) : Outcome (List RbdEndpoint × Option GoError) :=
  let (eps, err) := EndpointsDao_List s.sid
  match err with
  | some e => .returned ([], some e)
  | none =>
    match static_List_loop eps [] with
    | .returned res => .returned (res, none)
    | .panicked => .panicked

/-! ## `dynamic.List` -/

/-- The calls made on the discovery client. -/
inductive Call where
  | Connect
  | Fetch
  | Close
deriving DecidableEq, Repr

/-- A discovery client (`discovery.Discoverier`), given by what `Connect` and
`Fetch` return. -/
structure Discoverier where
  Connect : Option GoError
  Fetch : List RbdEndpoint × Option GoError
deriving DecidableEq, Repr

/-- `(*dynamic).List()`.  `NewDiscoverier` is `discovery.NewDiscoverier`.  The
result is what `List` returns together with the calls it made on the client,
in order; the deferred `Close` runs after `Fetch` has produced the return
values. -/
def dynamic_List {Cfg : Type} (NewDiscoverier : Cfg → Chan → Chan → Discoverier)
    (d : dynamic Cfg) : (List RbdEndpoint × Option GoError) × List Call :=
  let discoverier := NewDiscoverier d.cfg d.updateCh d.stopCh
  match discoverier.Connect with
  | some e => (([], some e), [.Connect])
  | none => (discoverier.Fetch, [.Connect, .Fetch, .Close])

/-! ## `Conv` -/

/-- The local state of `Conv`: the slice `res` and the map `m`.  The map is a
list of bindings, the newest first, from a port to the position in `res` of
the group it points to. -/
structure ConvState where
  res : List RbdEndpoints
  m : List (Int × Nat)
deriving DecidableEq, Repr

/-- The statement `v1ep.IPs = append(v1ep.IPs, ep.IP)` on one group. -/
def appendIP (ip : String) (g : RbdEndpoints) : RbdEndpoints :=
  { g with IPs := g.IPs ++ [ip] }

/-- One iteration of the loop of `Conv`. -/
def Conv_step (st : ConvState) (ep : Endpoint) : ConvState :=
  match st.m.lookup ep.Port with
  | some i => { st with res := st.res.modify (appendIP ep.IP) i }
  | none =>
    { res := st.res ++ [⟨ep.Port, [ep.IP]⟩]
      m := (ep.Port, st.res.length) :: st.m }

/-- `Conv(eps)`: the groups, and the error, which is always nil. -/
def Conv (eps : List Endpoint) : List RbdEndpoints × Option GoError :=
  ((eps.foldl Conv_step ⟨[], []⟩).res, none)

/-! ## Vocabulary of the statements -/

/-- A flat record `{port, address}` written into a given record `base`. -/
def mkRecord (base : Endpoint) (port : Int) (ip : String) : Endpoint :=
  { base with Port := port, IP := ip }

/-- The groups flattened back to records, group by group, each address of a
group paired with the port of the group. -/
def flatten (base : Endpoint) (gs : List RbdEndpoints) : List Endpoint :=
  gs.flatMap fun g => g.IPs.map (mkRecord base g.Port)

/-- A sequence with every later repeat of a value removed. -/
def firstOccurrences : List Int → List Int
  | [] => []
  | p :: ps => p :: (firstOccurrences ps).filter (fun q => q ≠ p)

/-- The addresses of the records with port `p`, in input order. -/
def addressesOf (eps : List Endpoint) (p : Int) : List String :=
  (eps.filter (fun ep => ep.Port = p)).map (fun ep => ep.IP)

/-! ## Definitions used in the proofs -/

/-- The position of the first group with port `p`. -/
def portIdx : List RbdEndpoints → Int → Option Nat
  | [], _ => none
  | g :: gs, p => if g.Port = p then some 0 else (portIdx gs p).map (· + 1)

/-- The effect of one iteration on `res`, found by scanning `res` itself. -/
def addTo : List RbdEndpoints → Int → String → List RbdEndpoints
  | [], p, ip => [⟨p, [ip]⟩]
  | g :: gs, p, ip => if g.Port = p then appendIP ip g :: gs else g :: addTo gs p ip

/-- The map agrees with the slice: it binds a port to the first position
holding that port. -/
def MapAgrees (st : ConvState) : Prop :=
  ∀ p, st.m.lookup p = portIdx st.res p

/-- The groups computed by map-free scanning. -/
def groupsOf (eps : List Endpoint) : List RbdEndpoints :=
  eps.foldl (fun gs ep => addTo gs ep.Port ep.IP) []

/-- The group of port `p` in closed form. -/
def groupAt (eps : List Endpoint) (p : Int) : RbdEndpoints :=
  ⟨p, addressesOf eps p⟩

/-- The groups in closed form: one group per distinct port, in order of first
occurrence, holding the addresses of the records with that port. -/
def groupsSpec (eps : List Endpoint) : List RbdEndpoints :=
  (firstOccurrences (eps.map (·.Port))).map (groupAt eps)

/-- What the loop of `static.List` relates: a stored endpoint and the record
made from it. -/
def Mirrors (ep : Endpoint) (r : RbdEndpoint) : Prop :=
  r.UUID = ep.UUID ∧ r.Sid = ep.ServiceID ∧ r.IP = ep.IP ∧ r.Port = ep.Port ∧
    r.Status = "unknown" ∧ ep.IsOnline = some r.IsOnline

/-! ## `Conv` and the scan of `res` -/

theorem portIdx_eq_none {gs : List RbdEndpoints} {p : Int} :
    portIdx gs p = none ↔ p ∉ gs.map (·.Port) := by
  induction gs with
  | nil => simp [portIdx]
  | cons g gs ih =>
    by_cases h : g.Port = p
    · simp [portIdx, h]
    · simp only [portIdx, h, if_false, Option.map_eq_none', ih, List.map_cons, List.mem_cons]
      constructor
      · intro h1 h2
        rcases h2 with h2 | h2
        · exact h h2.symm
        · exact h1 h2
      · intro h1 h2
        exact h1 (Or.inr h2)

theorem addTo_of_not_mem {gs : List RbdEndpoints} {p : Int} (ip : String)
    (h : p ∉ gs.map (·.Port)) : addTo gs p ip = gs ++ [⟨p, [ip]⟩] := by
  induction gs with
  | nil => rfl
  | cons g gs ih =>
    simp only [List.map_cons, List.mem_cons, not_or] at h
    have hg : ¬ g.Port = p := fun e => h.1 e.symm
    simp [addTo, hg, ih h.2]

theorem modify_of_portIdx {gs : List RbdEndpoints} {p : Int} {i : Nat} (ip : String)
    (h : portIdx gs p = some i) : gs.modify (appendIP ip) i = addTo gs p ip := by
  induction gs generalizing i with
  | nil => simp [portIdx] at h
  | cons g gs ih =>
    by_cases hg : g.Port = p
    · simp only [portIdx, hg, if_true, Option.some.injEq] at h
      subst h
      simp [addTo, hg]
    · simp only [portIdx, hg, if_false, Option.map_eq_some'] at h
      obtain ⟨j, hj, rfl⟩ := h
      simp [addTo, hg, ih hj]

theorem map_port_addTo (gs : List RbdEndpoints) (p : Int) (ip : String) :
    (addTo gs p ip).map (·.Port) =
      if p ∈ gs.map (·.Port) then gs.map (·.Port) else gs.map (·.Port) ++ [p] := by
  induction gs with
  | nil => simp [addTo]
  | cons g gs ih =>
    by_cases hg : g.Port = p
    · simp [addTo, hg, appendIP]
    · have hg' : ¬ p = g.Port := fun e => hg e.symm
      simp only [addTo, hg, if_false, List.map_cons, ih, List.mem_cons, hg', false_or]
      split <;> simp

theorem portIdx_addTo_of_mem {gs : List RbdEndpoints} {p : Int} (ip : String) (q : Int)
    (h : p ∈ gs.map (·.Port)) : portIdx (addTo gs p ip) q = portIdx gs q := by
  induction gs with
  | nil => simp at h
  | cons g gs ih =>
    by_cases hg : g.Port = p
    · simp [addTo, hg, portIdx, appendIP]
    · have hg' : ¬ p = g.Port := fun e => hg e.symm
      simp only [List.map_cons, List.mem_cons, hg', false_or] at h
      simp [addTo, hg, portIdx, ih h]

theorem portIdx_append_singleton {gs : List RbdEndpoints} {p : Int} (l : List String) (q : Int)
    (h : p ∉ gs.map (·.Port)) :
    portIdx (gs ++ [⟨p, l⟩]) q = if q = p then some gs.length else portIdx gs q := by
  induction gs with
  | nil =>
    by_cases hq : q = p
    · simp [portIdx, hq]
    · have hq' : ¬ p = q := fun e => hq e.symm
      simp [portIdx, hq, hq']
  | cons g gs ih =>
    simp only [List.map_cons, List.mem_cons, not_or] at h
    by_cases hq : q = p
    · subst hq
      have hg : ¬ g.Port = q := fun e => h.1 e.symm
      simp [portIdx, hg, ih h.2]
    · by_cases hg : g.Port = q
      · simp [portIdx, hg, hq]
      · simp [portIdx, hg, ih h.2, hq]

theorem Conv_step_res {st : ConvState} (h : MapAgrees st) (ep : Endpoint) :
    (Conv_step st ep).res = addTo st.res ep.Port ep.IP ∧ MapAgrees (Conv_step st ep) := by
  unfold Conv_step
  cases hl : st.m.lookup ep.Port with
  | some i =>
    have hi : portIdx st.res ep.Port = some i := by rw [← h, hl]
    have hmem : ep.Port ∈ st.res.map (·.Port) := by
      by_contra hc
      rw [portIdx_eq_none.mpr hc] at hi
      cases hi
    refine ⟨modify_of_portIdx ep.IP hi, ?_⟩
    intro q
    show st.m.lookup q = portIdx (st.res.modify (appendIP ep.IP) i) q
    rw [modify_of_portIdx ep.IP hi, portIdx_addTo_of_mem ep.IP q hmem]
    exact h q
  | none =>
    have hn : ep.Port ∉ st.res.map (·.Port) := by
      rw [← portIdx_eq_none, ← h, hl]
    refine ⟨(addTo_of_not_mem ep.IP hn).symm, ?_⟩
    intro q
    show ((ep.Port, st.res.length) :: st.m).lookup q = portIdx (st.res ++ [⟨ep.Port, [ep.IP]⟩]) q
    rw [portIdx_append_singleton [ep.IP] q hn]
    by_cases hq : q = ep.Port
    · subst hq
      simp [List.lookup]
    · have : (q == ep.Port) = false := by simpa using hq
      simp [List.lookup, this, hq, h q]

theorem foldl_Conv_step (eps : List Endpoint) (st : ConvState) (h : MapAgrees st) :
    (eps.foldl Conv_step st).res = eps.foldl (fun gs ep => addTo gs ep.Port ep.IP) st.res := by
  induction eps generalizing st with
  | nil => rfl
  | cons ep eps ih =>
    have hs := Conv_step_res h ep
    simp only [List.foldl_cons]
    rw [ih _ hs.2, hs.1]

theorem Conv_fst (eps : List Endpoint) : (Conv eps).1 = groupsOf eps :=
  foldl_Conv_step eps ⟨[], []⟩ (fun _ => rfl)

theorem groupsOf_snoc (eps : List Endpoint) (ep : Endpoint) :
    groupsOf (eps ++ [ep]) = addTo (groupsOf eps) ep.Port ep.IP := by
  simp [groupsOf, List.foldl_append]

/-! ## The groups in closed form -/

theorem mem_firstOccurrences {ps : List Int} {q : Int} :
    q ∈ firstOccurrences ps ↔ q ∈ ps := by
  induction ps with
  | nil => simp [firstOccurrences]
  | cons p ps ih =>
    by_cases hq : q = p
    · simp [firstOccurrences, hq]
    · simp [firstOccurrences, hq, ih]

theorem nodup_firstOccurrences (ps : List Int) : (firstOccurrences ps).Nodup := by
  induction ps with
  | nil => simp [firstOccurrences]
  | cons p ps ih =>
    simp only [firstOccurrences, List.nodup_cons]
    exact ⟨by simp, ih.filter _⟩

theorem firstOccurrences_snoc (ps : List Int) (p : Int) :
    firstOccurrences (ps ++ [p]) =
      if p ∈ ps then firstOccurrences ps else firstOccurrences ps ++ [p] := by
  induction ps with
  | nil => simp [firstOccurrences]
  | cons q ps ih =>
    have hc : firstOccurrences (q :: ps ++ [p]) =
        q :: (firstOccurrences (ps ++ [p])).filter (fun r => r ≠ q) := rfl
    have hd : firstOccurrences (q :: ps) =
        q :: (firstOccurrences ps).filter (fun r => r ≠ q) := rfl
    rw [hc, hd, ih]
    by_cases hq : p = q
    · subst hq
      by_cases hp : p ∈ ps
      · simp [hp]
      · simp [hp, List.filter_append]
    · by_cases hp : p ∈ ps
      · simp [hp, hq]
      · simp [hp, hq, List.filter_append]

theorem groupAt_snoc_ne (eps : List Endpoint) (ep : Endpoint) {q : Int} (h : q ≠ ep.Port) :
    groupAt (eps ++ [ep]) q = groupAt eps q := by
  have h' : ¬ ep.Port = q := fun e => h e.symm
  simp [groupAt, addressesOf, List.filter_append, List.filter_cons, h']

theorem groupAt_snoc_eq (eps : List Endpoint) (ep : Endpoint) :
    groupAt (eps ++ [ep]) ep.Port = appendIP ep.IP (groupAt eps ep.Port) := by
  simp [groupAt, addressesOf, List.filter_append, appendIP]

theorem addressesOf_of_not_mem {eps : List Endpoint} {p : Int}
    (h : p ∉ eps.map (·.Port)) : addressesOf eps p = [] := by
  simp only [addressesOf, List.map_eq_nil_iff, List.filter_eq_nil_iff]
  intro e he hp
  apply h
  simp only [List.mem_map]
  exact ⟨e, he, by simpa using hp⟩

theorem map_groupAt_snoc_of_not_mem (eps : List Endpoint) (ep : Endpoint) {ps : List Int}
    (h : ep.Port ∉ ps) : ps.map (groupAt (eps ++ [ep])) = ps.map (groupAt eps) := by
  apply List.map_congr_left
  intro q hq
  exact groupAt_snoc_ne eps ep (fun e => h (e ▸ hq))

theorem addTo_map_groupAt (eps : List Endpoint) (ep : Endpoint) {ps : List Int}
    (hn : ps.Nodup) (hm : ep.Port ∈ ps) :
    addTo (ps.map (groupAt eps)) ep.Port ep.IP = ps.map (groupAt (eps ++ [ep])) := by
  induction ps with
  | nil => simp at hm
  | cons q ps ih =>
    rw [List.nodup_cons] at hn
    by_cases hq : q = ep.Port
    · subst hq
      have h1 : (groupAt eps ep.Port).Port = ep.Port := rfl
      simp only [List.map_cons, addTo, h1, if_true, groupAt_snoc_eq,
        map_groupAt_snoc_of_not_mem eps ep hn.1]
    · have h1 : ¬ (groupAt eps q).Port = ep.Port := hq
      have hm' : ep.Port ∈ ps := by
        rcases List.mem_cons.mp hm with h | h
        · exact absurd h.symm hq
        · exact h
      simp only [List.map_cons, addTo, h1, if_false, groupAt_snoc_ne eps ep hq, ih hn.2 hm']

theorem groupsSpec_snoc (eps : List Endpoint) (ep : Endpoint) :
    groupsSpec (eps ++ [ep]) = addTo (groupsSpec eps) ep.Port ep.IP := by
  unfold groupsSpec
  rw [List.map_append, List.map_cons, List.map_nil, firstOccurrences_snoc]
  by_cases hm : ep.Port ∈ eps.map (·.Port)
  · rw [if_pos hm, addTo_map_groupAt eps ep (nodup_firstOccurrences _)
      (mem_firstOccurrences.mpr hm)]
  · have hm' : ep.Port ∉ firstOccurrences (eps.map (·.Port)) :=
      fun h => hm (mem_firstOccurrences.mp h)
    have hp : ep.Port ∉ ((firstOccurrences (eps.map (·.Port))).map (groupAt eps)).map (·.Port) := by
      simpa [groupAt, List.map_map, Function.comp_def] using hm'
    rw [if_neg hm, addTo_of_not_mem ep.IP hp, List.map_append,
      map_groupAt_snoc_of_not_mem eps ep hm', List.map_cons, List.map_nil,
      groupAt_snoc_eq, (show groupAt eps ep.Port = ⟨ep.Port, []⟩ from by
        simp [groupAt, addressesOf_of_not_mem hm])]
    rfl

theorem groupsOf_eq_groupsSpec (eps : List Endpoint) : groupsOf eps = groupsSpec eps := by
  induction eps using List.reverseRecOn with
  | nil => rfl
  | append_singleton eps ep ih => rw [groupsOf_snoc, groupsSpec_snoc, ih]

theorem Conv_eq_groupsSpec (eps : List Endpoint) : (Conv eps).1 = groupsSpec eps := by
  rw [Conv_fst, groupsOf_eq_groupsSpec]

theorem map_port_groupsSpec (eps : List Endpoint) :
    (groupsSpec eps).map (·.Port) = firstOccurrences (eps.map (·.Port)) := by
  simp [groupsSpec, groupAt, List.map_map, Function.comp_def]

theorem addressesOf_ne_nil {eps : List Endpoint} {p : Int}
    (h : p ∈ eps.map (·.Port)) : addressesOf eps p ≠ [] := by
  obtain ⟨e, he, hp⟩ := List.mem_map.mp h
  intro hn
  have hmem : e.IP ∈ addressesOf eps p := by
    simp only [addressesOf, List.mem_map, List.mem_filter]
    exact ⟨e, ⟨he, by simpa using hp⟩, rfl⟩
  rw [hn] at hmem
  cases hmem

theorem mem_groupsSpec {eps : List Endpoint} {g : RbdEndpoints} :
    g ∈ groupsSpec eps ↔ g.Port ∈ eps.map (·.Port) ∧ g.IPs = addressesOf eps g.Port := by
  simp only [groupsSpec, List.mem_map, mem_firstOccurrences]
  constructor
  · rintro ⟨p, ⟨e, he, hp⟩, rfl⟩
    exact ⟨⟨e, he, hp⟩, rfl⟩
  · rintro ⟨⟨e, he, hp⟩, hg⟩
    refine ⟨g.Port, ⟨e, he, hp⟩, ?_⟩
    cases g
    simp only [groupAt] at hg ⊢
    rw [hg]

theorem flatMap_IPs_addTo (gs : List RbdEndpoints) (p : Int) (ip : String) :
    ((addTo gs p ip).flatMap (·.IPs)).Perm (gs.flatMap (·.IPs) ++ [ip]) := by
  induction gs with
  | nil => simp [addTo]
  | cons g gs ih =>
    by_cases hg : g.Port = p
    · simp only [addTo, hg, if_true, List.flatMap_cons, appendIP, List.append_assoc]
      exact List.Perm.append_left _ List.perm_append_comm
    · simp only [addTo, hg, if_false, List.flatMap_cons, List.append_assoc]
      exact List.Perm.append_left _ ih

theorem flatMap_IPs_groupsOf (eps : List Endpoint) :
    ((groupsOf eps).flatMap (·.IPs)).Perm (eps.map (·.IP)) := by
  induction eps using List.reverseRecOn with
  | nil => simp [groupsOf]
  | append_singleton eps ep ih =>
    rw [groupsOf_snoc, List.map_append, List.map_cons, List.map_nil]
    exact (flatMap_IPs_addTo _ _ _).trans (List.Perm.append_right _ ih)

/-! ## Re-flattening -/

theorem addTo_append_hit (gs : List RbdEndpoints) (p : Int) (l : List String) (ip : String)
    (h : p ∉ gs.map (·.Port)) :
    addTo (gs ++ [⟨p, l⟩]) p ip = gs ++ [⟨p, l ++ [ip]⟩] := by
  induction gs with
  | nil => simp [addTo, appendIP]
  | cons g gs ih =>
    simp only [List.map_cons, List.mem_cons, not_or] at h
    have hg : ¬ g.Port = p := fun e => h.1 e.symm
    simp [addTo, hg, ih h.2]

theorem foldl_addTo_same_port (base : Endpoint) (gs : List RbdEndpoints) (p : Int)
    (l as : List String) (h : p ∉ gs.map (·.Port)) :
    (as.map (mkRecord base p)).foldl (fun gs ep => addTo gs ep.Port ep.IP) (gs ++ [⟨p, l⟩])
      = gs ++ [⟨p, l ++ as⟩] := by
  induction as generalizing l with
  | nil => simp
  | cons a as ih =>
    simp only [List.map_cons, List.foldl_cons, mkRecord, addTo_append_hit gs p l a h]
    have := ih (l ++ [a])
    simp only [mkRecord] at this
    rw [this, List.append_assoc, List.singleton_append]

theorem foldl_addTo_flatten (base : Endpoint) (rest pre : List RbdEndpoints)
    (hn : ((pre ++ rest).map (·.Port)).Nodup) (hne : ∀ g ∈ rest, g.IPs ≠ []) :
    (flatten base rest).foldl (fun gs ep => addTo gs ep.Port ep.IP) pre = pre ++ rest := by
  induction rest generalizing pre with
  | nil => simp [flatten]
  | cons g rest ih =>
    obtain ⟨p, l⟩ := g
    have hl : l ≠ [] := hne ⟨p, l⟩ (List.mem_cons_self _ _)
    obtain ⟨a, as, rfl⟩ := List.exists_cons_of_ne_nil hl
    have hp : p ∉ pre.map (·.Port) := by
      intro hmem
      rw [List.map_append, List.map_cons] at hn
      have := (List.nodup_append.mp hn).2.2
      exact this hmem (List.mem_cons_self _ _)
    have hn' : (((pre ++ [(⟨p, a :: as⟩ : RbdEndpoints)]) ++ rest).map
        (fun g : RbdEndpoints => g.Port)).Nodup := by
      simpa [List.append_assoc] using hn
    have hflat : flatten base (⟨p, a :: as⟩ :: rest) =
        mkRecord base p a :: ((as.map (mkRecord base p)) ++ flatten base rest) := by
      simp [flatten]
    rw [hflat, List.foldl_cons, List.foldl_append]
    have h1 : addTo pre (mkRecord base p a).Port (mkRecord base p a).IP = pre ++ [⟨p, [a]⟩] :=
      addTo_of_not_mem a hp
    rw [h1, foldl_addTo_same_port base pre p [a] as hp, List.singleton_append,
      ih (pre ++ [(⟨p, a :: as⟩ : RbdEndpoints)]) hn'
        (fun g hg => hne g (List.mem_cons_of_mem _ hg))]
    simp

theorem groupsOf_flatten (base : Endpoint) (eps : List Endpoint) :
    groupsOf (flatten base (groupsOf eps)) = groupsOf eps := by
  have h := foldl_addTo_flatten base (groupsOf eps) []
    (by
      rw [List.nil_append, groupsOf_eq_groupsSpec, map_port_groupsSpec]
      exact nodup_firstOccurrences _)
    (by
      intro g hg
      rw [groupsOf_eq_groupsSpec] at hg
      obtain ⟨hp, hi⟩ := mem_groupsSpec.mp hg
      rw [hi]
      exact addressesOf_ne_nil hp)
  simpa [groupsOf] using h

/-! ## The loop of `static.List` -/

theorem static_List_loop_returns (eps : List Endpoint) (acc : List RbdEndpoint)
    (h : ∀ ep ∈ eps, ep.IsOnline ≠ none) :
    ∃ res, static_List_loop eps acc = .returned (acc ++ res) ∧ List.Forall₂ Mirrors eps res := by
  induction eps generalizing acc with
  | nil => exact ⟨[], by simp [static_List_loop], List.Forall₂.nil⟩
  | cons ep eps ih =>
    cases ho : ep.IsOnline with
    | none => exact absurd ho (h ep (List.mem_cons_self _ _))
    | some b =>
      obtain ⟨res, hres, hall⟩ :=
        ih (acc ++ [⟨ep.UUID, ep.ServiceID, ep.IP, ep.Port, "unknown", b⟩])
          (fun e he => h e (List.mem_cons_of_mem _ he))
      refine ⟨⟨ep.UUID, ep.ServiceID, ep.IP, ep.Port, "unknown", b⟩ :: res, ?_, ?_⟩
      · simp only [static_List_loop, ho, hres, List.append_assoc, List.singleton_append]
      · exact List.Forall₂.cons ⟨rfl, rfl, rfl, rfl, rfl, ho⟩ hall

/-! ## The claims -/

/-- C1: the groups returned by `Conv` have pairwise distinct ports, for every
input; port 0 is a port like any other. -/
theorem Conv_ports_pairwise_distinct (eps : List Endpoint) :
    (Conv eps).1.Pairwise (fun g h => g.Port ≠ h.Port) := by
  have h : ((Conv eps).1.map (·.Port)).Nodup := by
    rw [Conv_eq_groupsSpec, map_port_groupsSpec]
    exact nodup_firstOccurrences _
  exact List.pairwise_map.mp h

/-- C2: the addresses of all groups returned by `Conv`, concatenated, are as
a multiset the addresses of the input records: none is dropped, added or
deduplicated. -/
theorem Conv_addresses_multiset (eps : List Endpoint) :
    (((Conv eps).1.flatMap (·.IPs) : List String) : Multiset String) =
      ((eps.map (·.IP) : List String) : Multiset String) := by
  rw [Conv_fst]
  exact Multiset.coe_eq_coe.mpr (flatMap_IPs_groupsOf eps)

/-- C3: the ports of the groups returned by `Conv` are the distinct ports of
the input in order of first occurrence; the order is not that of the port
values, as the input with ports 443, 80, 443 shows. -/
theorem Conv_ports_first_occurrence :
    (∀ eps : List Endpoint,
      (Conv eps).1.map (·.Port) = firstOccurrences (eps.map (·.Port))) ∧
    (Conv [⟨"", "", "10.0.0.1", 443, some true⟩, ⟨"", "", "10.0.0.2", 80, some true⟩,
        ⟨"", "", "10.0.0.3", 443, some true⟩]).1.map (·.Port) = [443, 80] := by
  refine ⟨fun eps => ?_, by decide⟩
  rw [Conv_eq_groupsSpec, map_port_groupsSpec]

/-- C4: the addresses of a group returned by `Conv` are the addresses of the
input records whose port is the port of the group, in input order and with
duplicates kept. -/
theorem Conv_group_addresses (eps : List Endpoint) (g : RbdEndpoints)
    (hg : g ∈ (Conv eps).1) : g.IPs = addressesOf eps g.Port := by
  rw [Conv_eq_groupsSpec] at hg
  exact (mem_groupsSpec.mp hg).2

/-- C4 on the input of the specification: ports 80, 80, 443. -/
theorem Conv_group_addresses_witness :
    Conv [⟨"", "", "10.0.0.1", 80, some true⟩, ⟨"", "", "10.0.0.2", 80, some true⟩,
        ⟨"", "", "10.0.0.1", 443, some true⟩] =
      ([⟨80, ["10.0.0.1", "10.0.0.2"]⟩, ⟨443, ["10.0.0.1"]⟩], none) ∧
    (⟨80, ["10.0.0.1", "10.0.0.2"]⟩ : RbdEndpoints).IPs =
      addressesOf [⟨"", "", "10.0.0.1", 80, some true⟩, ⟨"", "", "10.0.0.2", 80, some true⟩,
        ⟨"", "", "10.0.0.1", 443, some true⟩] 80 :=
  ⟨by decide, Conv_group_addresses _ _ (by decide)⟩

/-- C5: every input record, one with port 0 included, has a group in the
output of `Conv` with its port and holding its address; that group is the
only one with this port, and the groups of the other ports are made of the
records of the other ports alone. -/
theorem Conv_record_kept (eps : List Endpoint) (ep : Endpoint) (hep : ep ∈ eps) :
    ∃ g ∈ (Conv eps).1, g.Port = ep.Port ∧ ep.IP ∈ g.IPs ∧
      (∀ g' ∈ (Conv eps).1, g'.Port = ep.Port → g' = g) ∧
      (∀ g' ∈ (Conv eps).1, g'.Port ≠ ep.Port →
        g'.IPs = addressesOf (eps.filter (fun e => e.Port ≠ ep.Port)) g'.Port) := by
  have hp : ep.Port ∈ eps.map (·.Port) := List.mem_map.mpr ⟨ep, hep, rfl⟩
  refine ⟨groupAt eps ep.Port, ?_, rfl, ?_, ?_, ?_⟩
  · rw [Conv_eq_groupsSpec]
    exact mem_groupsSpec.mpr ⟨hp, rfl⟩
  · simp only [groupAt, addressesOf, List.mem_map, List.mem_filter]
    exact ⟨ep, ⟨hep, by simp⟩, rfl⟩
  · intro g' hg' hport
    rw [Conv_eq_groupsSpec] at hg'
    have hi := (mem_groupsSpec.mp hg').2
    cases g'
    simp only at hport hi
    subst hport
    simp only [groupAt, hi]
  · intro g' hg' hport
    rw [Conv_eq_groupsSpec] at hg'
    rw [(mem_groupsSpec.mp hg').2]
    simp only [addressesOf, List.filter_filter]
    congr 1
    apply List.filter_congr
    intro e _
    by_cases he : e.Port = g'.Port
    · have : e.Port ≠ ep.Port := he ▸ hport
      simp [he, hport]
    · simp [he]

/-- C5 on a record with port 0 between two records with port 80. -/
theorem Conv_record_kept_witness :
    ∃ g ∈ (Conv [⟨"", "", "10.0.0.1", 80, some true⟩, ⟨"", "", "10.0.0.5", 0, some true⟩,
        ⟨"", "", "10.0.0.5", 80, some true⟩]).1,
      g.Port = 0 ∧ "10.0.0.5" ∈ g.IPs ∧
      (∀ g' ∈ (Conv [⟨"", "", "10.0.0.1", 80, some true⟩, ⟨"", "", "10.0.0.5", 0, some true⟩,
        ⟨"", "", "10.0.0.5", 80, some true⟩]).1, g'.Port = 0 → g' = g) ∧
      (∀ g' ∈ (Conv [⟨"", "", "10.0.0.1", 80, some true⟩, ⟨"", "", "10.0.0.5", 0, some true⟩,
        ⟨"", "", "10.0.0.5", 80, some true⟩]).1, g'.Port ≠ 0 →
        g'.IPs = addressesOf
          (([⟨"", "", "10.0.0.1", 80, some true⟩, ⟨"", "", "10.0.0.5", 0, some true⟩,
            ⟨"", "", "10.0.0.5", 80, some true⟩] : List Endpoint).filter
              (fun e => e.Port ≠ 0)) g'.Port) :=
  Conv_record_kept _ ⟨"", "", "10.0.0.5", 0, some true⟩ (by decide)

/-- C6: `NewInteracter` returns a Dynamic resolver, bound to the found
configuration and the two given channels, exactly when the lookup returns no
error and a configuration; in every other case, a failed lookup included, it
returns a Static resolver bound to the service identifier.  It always returns
one of the two. -/
theorem NewInteracter_dynamic_iff {Cfg : Type}
    (GetByServiceID : String → Option Cfg × Option GoError)
    (sid : String) (updateCh stopCh : Chan) :
    (∀ d, (NewInteracter GetByServiceID sid updateCh stopCh).1 = .ofDynamic d ↔
      ∃ c, GetByServiceID sid = (some c, none) ∧ d = ⟨c, updateCh, stopCh⟩) ∧
    (∀ s, (NewInteracter GetByServiceID sid updateCh stopCh).1 = .ofStatic s ↔
      (¬ ∃ c, GetByServiceID sid = (some c, none)) ∧ s = ⟨sid⟩) := by
  unfold NewInteracter
  rcases hl : GetByServiceID sid with ⟨cfg, err⟩
  cases err with
  | some e =>
    refine ⟨fun d => ?_, fun s => ?_⟩
    · simp
    · cases cfg <;> simp [eq_comm]
  | none =>
    cases cfg with
    | none =>
      refine ⟨fun d => ?_, fun s => ?_⟩
      · simp
      · simp [eq_comm]
    | some c =>
      refine ⟨fun d => ?_, fun s => ?_⟩
      · simp [eq_comm]
      · simp

/-- C7, as the code has it: when the storage read returns without error and
every stored endpoint carries an online flag, `static.List` returns without
error a sequence of the same length whose i-th record copies the identifier,
service ID, address and port of the i-th stored endpoint, has status
"unknown" and has the stored online flag. -/
theorem static_List_mirrors (EndpointsDao_List : String → List Endpoint × Option GoError)
    (s : static) (eps : List Endpoint)
    (hread : EndpointsDao_List s.sid = (eps, none))
    (hflag : ∀ ep ∈ eps, ep.IsOnline ≠ none) :
    ∃ res, static_List EndpointsDao_List s = .returned (res, none) ∧
      res.length = eps.length ∧ List.Forall₂ Mirrors eps res := by
  obtain ⟨res, hres, hall⟩ := static_List_loop_returns eps [] hflag
  refine ⟨res, ?_, hall.length_eq.symm, hall⟩
  simp only [static_List, hread, hres, List.nil_append]

/-- C7 on two stored endpoints, the first online and the second not. -/
theorem static_List_mirrors_witness :
    ∃ res, static_List (fun _ => ([⟨"u1", "svc", "10.0.0.1", 80, some true⟩,
        ⟨"u2", "svc", "10.0.0.2", 81, some false⟩], none)) ⟨"svc"⟩ = .returned (res, none) ∧
      res.length = 2 ∧
      List.Forall₂ Mirrors [⟨"u1", "svc", "10.0.0.1", 80, some true⟩,
        ⟨"u2", "svc", "10.0.0.2", 81, some false⟩] res :=
  static_List_mirrors _ ⟨"svc"⟩
    [⟨"u1", "svc", "10.0.0.1", 80, some true⟩, ⟨"u2", "svc", "10.0.0.2", 81, some false⟩]
    rfl (by decide)

/-- C7 as stated fails: the storage read returns without error one endpoint
whose `IsOnline` pointer is nil, and `static.List` panics instead of
returning. -/
theorem static_List_nil_flag_panics :
    static_List (fun _ => ([⟨"u1", "svc", "10.0.0.1", 80, none⟩], none)) ⟨"svc"⟩ =
      Outcome.panicked := by
  decide

/-- C8, as the code has it: `dynamic.List` calls `Close` exactly when
`Connect` succeeded, and then once, as its last call, whether `Fetch` fails
or not; when `Connect` fails the only call made is `Connect`, and `List`
returns the error of `Connect` with no records. -/
theorem dynamic_List_close_iff_connected {Cfg : Type}
    (NewDiscoverier : Cfg → Chan → Chan → Discoverier) (d : dynamic Cfg) :
    (Call.Close ∈ (dynamic_List NewDiscoverier d).2 ↔
      (NewDiscoverier d.cfg d.updateCh d.stopCh).Connect = none) ∧
    ((NewDiscoverier d.cfg d.updateCh d.stopCh).Connect = none →
      (dynamic_List NewDiscoverier d).2 = [.Connect, .Fetch, .Close]) ∧
    ((NewDiscoverier d.cfg d.updateCh d.stopCh).Connect ≠ none →
      (dynamic_List NewDiscoverier d).2 = [.Connect]) ∧
    (∀ e, (NewDiscoverier d.cfg d.updateCh d.stopCh).Connect = some e →
      (dynamic_List NewDiscoverier d).1 = ([], some e) ∧
        Call.Close ∉ (dynamic_List NewDiscoverier d).2) := by
  cases h : (NewDiscoverier d.cfg d.updateCh d.stopCh).Connect <;> simp [dynamic_List, h]

/-- C8 as stated fails: when `Connect` fails, `dynamic.List` returns the
error and `Close` has not been called. -/
theorem dynamic_List_connect_error_no_close :
    (dynamic_List (fun (_ : Unit) _ _ => ⟨some "connection refused", ([], none)⟩)
        ⟨(), 1, 2⟩).1 = ([], some "connection refused") ∧
    Call.Close ∉ (dynamic_List (fun (_ : Unit) _ _ => ⟨some "connection refused", ([], none)⟩)
        ⟨(), 1, 2⟩).2 := by
  decide

/-- C9: `List` surfaces the errors of its collaborators unchanged.
`static.List` returns an error exactly when the storage read fails, and then
that error and no records.  `dynamic.List` returns the error of `Connect`
and no records, without calling `Fetch`, when `Connect` fails; otherwise it
returns the records and the error of `Fetch`; so it returns an error exactly
when `Connect` or `Fetch` fails. -/
theorem List_surfaces_errors {Cfg : Type}
    (EndpointsDao_List : String → List Endpoint × Option GoError) (s : static)
    (NewDiscoverier : Cfg → Chan → Chan → Discoverier) (d : dynamic Cfg) :
    (∀ res e, static_List EndpointsDao_List s = .returned (res, some e) ↔
      (EndpointsDao_List s.sid).2 = some e ∧ res = []) ∧
    (∀ e, (NewDiscoverier d.cfg d.updateCh d.stopCh).Connect = some e →
      (dynamic_List NewDiscoverier d).1 = ([], some e) ∧
        Call.Fetch ∉ (dynamic_List NewDiscoverier d).2) ∧
    ((NewDiscoverier d.cfg d.updateCh d.stopCh).Connect = none →
      (dynamic_List NewDiscoverier d).1 = (NewDiscoverier d.cfg d.updateCh d.stopCh).Fetch) ∧
    ((dynamic_List NewDiscoverier d).1.2 ≠ none ↔
      (NewDiscoverier d.cfg d.updateCh d.stopCh).Connect ≠ none ∨
        (NewDiscoverier d.cfg d.updateCh d.stopCh).Fetch.2 ≠ none) := by
  refine ⟨fun res e => ?_, ?_⟩
  · unfold static_List
    rcases hr : EndpointsDao_List s.sid with ⟨eps, err⟩
    cases err with
    | some e' => simp [eq_comm, and_comm]
    | none =>
      cases hl : static_List_loop eps [] <;> simp [hl]
  · cases h : (NewDiscoverier d.cfg d.updateCh d.stopCh).Connect <;> simp [dynamic_List, h]

/-- C10: `Conv` is idempotent through re-flattening: flattening its groups in
output order, each address paired with the port of its group, and applying
`Conv` again returns the same groups.  The other fields of the flat records,
taken from `base`, do not matter. -/
theorem Conv_flatten_Conv (base : Endpoint) (eps : List Endpoint) :
    Conv (flatten base (Conv eps).1) = Conv eps := by
  have h1 : (Conv (flatten base (Conv eps).1)).1 = (Conv eps).1 := by
    rw [Conv_fst, Conv_fst, groupsOf_flatten]
  exact Prod.ext h1 rfl

end Thirdparty
